import Mathlib

/-!
Verification of the TransIP DNS-01 webhook solver (`main.go`).

Go strings are modelled as `List Char`, Go byte slices as `List Nat`, and
Go `(value, error)` returns as `Except String`.  The external dependencies
(the Kubernetes secret store, the `gotransip` client constructor and domain
repository, the cert-manager `util.FindZoneByFqdn` zone walker, and
`json.Unmarshal`) are passed in as function parameters, so every theorem
quantifies over their behaviour.  The adapter's own control flow is a direct
transcription of `main.go`.
-/

set_option autoImplicit false

namespace TransipWebhook

/-- Transcription of Go `strings.HasPrefix s pat` on `List Char`:
does `s` start with `pat`? -/
def strStarts : List Char → List Char → Bool
  | _, [] => true
  | [], _ :: _ => false
  | c :: s, p :: ps => if c = p then strStarts s ps else false

/-- Transcription of Go `strings.Index s pat`: the byte index of the first
occurrence of `pat` in `s`, `none` standing for Go's `-1`. -/
def strIndex : List Char → List Char → Option Nat
  | [], pat => if strStarts [] pat then some 0 else none
  | c :: rest, pat =>
    if strStarts (c :: rest) pat then some 0
    else (strIndex rest pat).map (· + 1)

/-- Transcription of cert-manager `util.UnFqdn`, which is
`strings.TrimSuffix(name, ".")`: remove one trailing dot when present. -/
def unFqdn (s : List Char) : List Char :=
  if s.getLast? = some ('.' : Char) then s.dropLast else s

/-- Transcription of `extractRecordName` (`main.go`): cut `fqdn` at the first
occurrence of `"." ++ domain`; when there is none, return `unFqdn fqdn`. -/
def extractRecordName (fqdn dom : List Char) : List Char :=
  match strIndex fqdn ('.' :: dom) with
  | some idx => fqdn.take idx
  | none => unFqdn fqdn

/-- Transcription of `extractDomainName` (`main.go`).  `findZone` stands for
the external `util.FindZoneByFqdn`: on error the caller-supplied zone is
returned unchanged, otherwise the discovered zone is de-FQDN-ed. -/
def extractDomainName (findZone : List Char → Except String (List Char))
    (zone : List Char) : List Char :=
  match findZone zone with
  | Except.error _ => zone
  | Except.ok authZone => unFqdn authZone

/-- The `domain.DNSEntry` record of the gotransip library: the four fields
compared by Go struct equality `==` in `Present` and `CleanUp`. -/
structure DNSEntry where
  name : List Char
  expire : Int
  type_ : String
  content : List Char
deriving DecidableEq, Repr

/-- The `v1.SecretKeySelector` part of the configuration: secret name and
data key. -/
structure SecretKeySelector where
  name : String
  key : String
deriving DecidableEq, Repr

/-- `transipDNSProviderConfig` (`main.go`): account name, optional inline
private key, secret reference and TTL. -/
structure Config where
  accountName : String
  privateKey : List Nat
  privateKeySecretRef : SecretKeySelector
  ttl : Int
deriving DecidableEq, Repr

/-- A Kubernetes secret as the solver uses it: its `Data` map, modelled as an
association list from key to byte slice. -/
structure Secret where
  data : List (String × List Nat)
deriving DecidableEq, Repr

/-- The gotransip `repository.Client` as far as this adapter observes it:
what `gotransip.NewClient` was given. -/
structure Client where
  accountName : String
  privateKey : List Nat
deriving DecidableEq, Repr

/-- The fields of `v1alpha1.ChallengeRequest` that `main.go` reads. -/
structure ChallengeRequest where
  resolvedFQDN : List Char
  resolvedZone : List Char
  key : List Char
  resourceNamespace : String
  config : Option String
deriving DecidableEq, Repr

/-- Go map lookup `secret.Data[key]` on the association-list model. -/
def lookupData : List (String × List Nat) → String → Option (List Nat)
  | [], _ => none
  | (k, v) :: rest, key => if k = key then some v else lookupData rest key

/-- The zero value of `transipDNSProviderConfig`, as produced by
`transipDNSProviderConfig{}` in Go. -/
def zeroConfig : Config :=
  { accountName := ""
    privateKey := []
    privateKeySecretRef := { name := "", key := "" }
    ttl := 0 }

/-- Transcription of `loadConfig` (`main.go`).  `unmarshal` stands for the
external `json.Unmarshal` into the config struct; a `nil` blob yields the
zero configuration, a decode failure is wrapped and returned. -/
def loadConfig (unmarshal : String → Except String Config)
    (cfgJSON : Option String) : Except String Config :=
  match cfgJSON with
  | none => Except.ok zeroConfig
  | some raw =>
    match unmarshal raw with
    | Except.error e => Except.error ("error decoding solver config: " ++ e)
    | Except.ok cfg => Except.ok cfg

/-- Transcription of `NewTransipClient` (`main.go`).  `store` stands for the
Kubernetes secrets API (`Secrets(ns).Get(name)`), `mkClient` for
`gotransip.NewClient` applied to the account name and private-key bytes.
A non-empty inline key skips the secret store entirely. -/
def NewTransipClient (store : String → String → Except String Secret)
    (mkClient : String → List Nat → Except String Client)
    (ch : ChallengeRequest) (cfg : Config) : Except String Client :=
  if cfg.privateKey.length = 0 then
    match store ch.resourceNamespace cfg.privateKeySecretRef.name with
    | Except.error e => Except.error e
    | Except.ok secret =>
      match lookupData secret.data cfg.privateKeySecretRef.key with
      | none =>
        Except.error ("no private key for \"" ++ cfg.privateKeySecretRef.name
          ++ "\" in secret '" ++ cfg.privateKeySecretRef.key ++ "/"
          ++ ch.resourceNamespace ++ "'")
      | some pk => mkClient cfg.accountName pk
  else
    mkClient cfg.accountName cfg.privateKey

/-- Transcription of `NewDNSEntryFromChallenge` (`main.go`): the target TXT
entry built from the challenge. -/
def NewDNSEntryFromChallenge (ch : ChallengeRequest) (cfg : Config)
    (domainName : List Char) : DNSEntry :=
  { name := extractRecordName ch.resolvedFQDN domainName
    expire := cfg.ttl
    type_ := "TXT"
    content := ch.key }

/-- The external dependencies of `Present` and `CleanUp`: zone discovery,
JSON decoding, the secret store, the client constructor, and the three
provider API calls of the gotransip domain repository. -/
structure Deps where
  findZone : List Char → Except String (List Char)
  unmarshal : String → Except String Config
  store : String → String → Except String Secret
  mkClient : String → List Nat → Except String Client
  getEntries : Client → List Char → Except String (List DNSEntry)
  addEntry : Client → List Char → DNSEntry → Except String Unit
  removeEntry : Client → List Char → DNSEntry → Except String Unit

/-- A mutating provider call issued by the adapter, with its arguments. -/
inductive ProviderOp where
  | add : List Char → DNSEntry → ProviderOp
  | remove : List Char → DNSEntry → ProviderOp
deriving DecidableEq, Repr

/-- The `for _, s := range dnsEntries { if s == target { ... } }` scan shared
by `Present` and `CleanUp`: is some entry Go-`==`-equal to `target`? -/
def containsEntry : List DNSEntry → DNSEntry → Bool
  | [], _ => false
  | s :: rest, target => if s = target then true else containsEntry rest target

/-- Transcription of `Present` (`main.go`).  Besides the returned error it
records the mutating provider calls issued, in order. -/
def Present (d : Deps) (ch : ChallengeRequest) :
    Except String Unit × List ProviderOp :=
  match loadConfig d.unmarshal ch.config with
  | Except.error e => (Except.error e, [])
  | Except.ok cfg =>
    match NewTransipClient d.store d.mkClient ch cfg with
    | Except.error e => (Except.error e, [])
    | Except.ok client =>
      match d.getEntries client (extractDomainName d.findZone ch.resolvedZone) with
      | Except.error e => (Except.error e, [])
      | Except.ok dnsEntries =>
        if containsEntry dnsEntries
            (NewDNSEntryFromChallenge ch cfg
              (extractDomainName d.findZone ch.resolvedZone)) then
          (Except.ok (), [])
        else
          match d.addEntry client (extractDomainName d.findZone ch.resolvedZone)
              (NewDNSEntryFromChallenge ch cfg
                (extractDomainName d.findZone ch.resolvedZone)) with
          | Except.error e =>
            (Except.error e,
              [ProviderOp.add (extractDomainName d.findZone ch.resolvedZone)
                (NewDNSEntryFromChallenge ch cfg
                  (extractDomainName d.findZone ch.resolvedZone))])
          | Except.ok _ =>
            (Except.ok (),
              [ProviderOp.add (extractDomainName d.findZone ch.resolvedZone)
                (NewDNSEntryFromChallenge ch cfg
                  (extractDomainName d.findZone ch.resolvedZone))])

/-- Transcription of `CleanUp` (`main.go`): on the first entry Go-`==`-equal
to the target, remove exactly the target tuple and return; otherwise do
nothing and succeed. -/
def CleanUp (d : Deps) (ch : ChallengeRequest) :
    Except String Unit × List ProviderOp :=
  match loadConfig d.unmarshal ch.config with
  | Except.error e => (Except.error e, [])
  | Except.ok cfg =>
    match NewTransipClient d.store d.mkClient ch cfg with
    | Except.error e => (Except.error e, [])
    | Except.ok client =>
      match d.getEntries client (extractDomainName d.findZone ch.resolvedZone) with
      | Except.error e => (Except.error e, [])
      | Except.ok dnsEntries =>
        if containsEntry dnsEntries
            (NewDNSEntryFromChallenge ch cfg
              (extractDomainName d.findZone ch.resolvedZone)) then
          match d.removeEntry client (extractDomainName d.findZone ch.resolvedZone)
              (NewDNSEntryFromChallenge ch cfg
                (extractDomainName d.findZone ch.resolvedZone)) with
          | Except.error e =>
            (Except.error e,
              [ProviderOp.remove (extractDomainName d.findZone ch.resolvedZone)
                (NewDNSEntryFromChallenge ch cfg
                  (extractDomainName d.findZone ch.resolvedZone))])
          | Except.ok _ =>
            (Except.ok (),
              [ProviderOp.remove (extractDomainName d.findZone ch.resolvedZone)
                (NewDNSEntryFromChallenge ch cfg
                  (extractDomainName d.findZone ch.resolvedZone))])
        else
          (Except.ok (), [])

/-- The domain name both `Present` and `CleanUp` compute first; abbreviation
for theorem statements. -/
def domainOf (d : Deps) (ch : ChallengeRequest) : List Char :=
  extractDomainName d.findZone ch.resolvedZone

/-- The target entry both `Present` and `CleanUp` build; abbreviation for
theorem statements. -/
def targetEntry (d : Deps) (ch : ChallengeRequest) (cfg : Config) : DNSEntry :=
  NewDNSEntryFromChallenge ch cfg (domainOf d ch)

/-- Number of records in a provider state equal to the given tuple. -/
def countEntry (t : DNSEntry) : List DNSEntry → Nat
  | [] => 0
  | s :: rest => (if s = t then 1 else 0) + countEntry t rest

/-- Removal of the first record equal to the given tuple, the observable
effect of the provider's remove-entry call on its record list. -/
def eraseFirst (t : DNSEntry) : List DNSEntry → List DNSEntry
  | [] => []
  | s :: rest => if s = t then rest else s :: eraseFirst t rest

/-- Effect of a sequence of issued provider calls on the provider's record
list for the domain: add appends, remove deletes the matching tuple. -/
def applyOps : List DNSEntry → List ProviderOp → List DNSEntry
  | st, [] => st
  | st, ProviderOp.add _ e :: rest => applyOps (st ++ [e]) rest
  | st, ProviderOp.remove _ e :: rest => applyOps (eraseFirst e st) rest

/-! ### String-scanning lemmas -/

theorem strStarts_self_append (pat r : List Char) :
    strStarts (pat ++ r) pat = true := by
  induction pat with
  | nil => cases r <;> rfl
  | cons p ps ih => simp [strStarts, ih]

theorem strStarts_decomp (pat : List Char) :
    ∀ s : List Char, strStarts s pat = true → ∃ r, s = pat ++ r := by
  induction pat with
  | nil => intro s _; exact ⟨s, rfl⟩
  | cons p ps ih =>
    intro s hs
    cases s with
    | nil => simp [strStarts] at hs
    | cons c t =>
      by_cases hc : c = p
      · subst hc
        simp [strStarts] at hs
        obtain ⟨r, hr⟩ := ih t hs
        exact ⟨r, by simp [hr]⟩
      · simp [strStarts, hc] at hs

theorem strIndex_some_of (pat : List Char) :
    ∀ (s : List Char) (n : Nat),
      strStarts (s.drop n) pat = true →
      (∀ j, j < n → strStarts (s.drop j) pat = false) →
      strIndex s pat = some n := by
  intro s
  induction s with
  | nil =>
    intro n hm hmin
    cases n with
    | zero =>
      have hm' : strStarts [] pat = true := by simpa using hm
      simp [strIndex, hm']
    | succ m =>
      have h0 : strStarts [] pat = false := by simpa using hmin 0 (Nat.succ_pos m)
      have hm' : strStarts [] pat = true := by simpa using hm
      rw [h0] at hm'
      exact Bool.noConfusion hm'
  | cons c rest ih =>
    intro n hm hmin
    cases n with
    | zero =>
      have hm' : strStarts (c :: rest) pat = true := by simpa using hm
      simp [strIndex, hm']
    | succ m =>
      have h0 : strStarts (c :: rest) pat = false := by
        have := hmin 0 (Nat.succ_pos m)
        simpa using this
      have hm' : strStarts (rest.drop m) pat = true := by
        simpa [List.drop_succ_cons] using hm
      have hmin' : ∀ j, j < m → strStarts (rest.drop j) pat = false := by
        intro j hj
        have := hmin (j + 1) (Nat.succ_lt_succ hj)
        simpa [List.drop_succ_cons] using this
      simp [strIndex, h0, ih m hm' hmin']

theorem strIndex_none_of (pat : List Char) :
    ∀ s : List Char, (∀ j, strStarts (s.drop j) pat = false) →
      strIndex s pat = none := by
  intro s
  induction s with
  | nil =>
    intro h
    have := h 0
    simp only [List.drop] at this
    simp [strIndex, this]
  | cons c rest ih =>
    intro h
    have h0 : strStarts (c :: rest) pat = false := by simpa using h 0
    have hrest : strIndex rest pat = none := by
      refine ih fun j => ?_
      simpa [List.drop_succ_cons] using h (j + 1)
    simp [strIndex, h0, hrest]

theorem no_occurrence_of_bounded (s pat : List Char) (hne : pat ≠ [])
    (hb : ∀ j, j < s.length → strStarts (s.drop j) pat = false) :
    ∀ j, strStarts (s.drop j) pat = false := by
  intro j
  by_cases hj : j < s.length
  · exact hb j hj
  · rw [List.drop_eq_nil_of_le (Nat.le_of_not_lt hj)]
    cases pat with
    | nil => exact absurd rfl hne
    | cons p ps => rfl

theorem not_substring_of_bounded (s pat : List Char) (hne : pat ≠ [])
    (hb : ∀ j, j < s.length → strStarts (s.drop j) pat = false) :
    ¬ ∃ l r, s = l ++ pat ++ r := by
  rintro ⟨l, r, hdecomp⟩
  have hocc : strStarts (s.drop l.length) pat = true := by
    rw [hdecomp, List.append_assoc, List.drop_left]
    exact strStarts_self_append pat r
  have hall := no_occurrence_of_bounded s pat hne hb l.length
  rw [hall] at hocc
  exact Bool.false_ne_true hocc

theorem unFqdn_concat_dot (r : List Char) : unFqdn (r ++ ['.']) = r := by
  simp [unFqdn, List.getLast?_concat, List.dropLast_concat]

theorem unFqdn_of_no_trailing_dot (s : List Char)
    (h : s.getLast? ≠ some '.') : unFqdn s = s := by
  simp [unFqdn, h]

/-! ### Claim theorems: the string helpers (C3, C8) and zone fallback (C5) -/

/-- C3 (counterexample): the claim that `extractRecordName` strips the zone
suffix fails when `"." ++ zone` also occurs earlier in the name.  Here
`fqdn = "_acme-challenge.example.com.example.com"` ends with
`"." ++ "example.com"`, the suffix-stripped prefix is
`"_acme-challenge.example.com"`, yet the code cuts at the first occurrence
and returns `"_acme-challenge"`. -/
theorem extractRecordName_counterexample :
    ("_acme-challenge.example.com.example.com".toList
        = "_acme-challenge.example.com".toList ++ '.' :: "example.com".toList)
    ∧ extractRecordName "_acme-challenge.example.com.example.com".toList
        "example.com".toList = "_acme-challenge".toList
    ∧ "_acme-challenge".toList ≠ "_acme-challenge.example.com".toList := by
  refine ⟨by decide, by decide, by decide⟩

/-- C3 (amended): when `fqdn` is `rel ++ "." ++ zone`, optionally with a
trailing dot, and `"." ++ zone` occurs nowhere before that suffix,
`extractRecordName` returns `rel`, the record's relative name; in general the
code cuts at the first occurrence of `"." ++ zone`. -/
theorem extractRecordName_strips_zone (z r fqdn : List Char)
    (hsplit : fqdn = r ++ '.' :: z ∨ fqdn = (r ++ '.' :: z) ++ ['.'])
    (hearly : ∀ j, j < r.length → strStarts (fqdn.drop j) ('.' :: z) = false) :
    extractRecordName fqdn z = r := by
  have hm : strStarts (fqdn.drop r.length) ('.' :: z) = true := by
    rcases hsplit with h | h
    · rw [h, List.drop_left]
      simpa using strStarts_self_append ('.' :: z) []
    · rw [h, List.append_assoc, List.drop_left]
      exact strStarts_self_append ('.' :: z) ['.']
  have hidx : strIndex fqdn ('.' :: z) = some r.length :=
    strIndex_some_of ('.' :: z) fqdn r.length hm hearly
  simp only [extractRecordName, hidx]
  rcases hsplit with h | h
  · rw [h, List.take_left]
  · rw [h, List.append_assoc, List.take_left]

/-- Witness for C3 (amended) at the repository's own shape of input. -/
theorem extractRecordName_strips_zone_witness :
    extractRecordName "_acme-challenge.example.com".toList
      "example.com".toList = "_acme-challenge".toList :=
  extractRecordName_strips_zone "example.com".toList "_acme-challenge".toList
    "_acme-challenge.example.com".toList (Or.inl (by decide)) (by decide)

/-- C8: when `"." ++ zone` is not a substring of `fqdn`, `extractRecordName`
falls back to `fqdn` with only a trailing dot removed: a trailing dot is
stripped, and a name without one is returned unchanged. -/
theorem extractRecordName_fallback (fqdn z : List Char)
    (h : ¬ ∃ l r, fqdn = l ++ ('.' :: z) ++ r) :
    (∀ r, fqdn = r ++ ['.'] → extractRecordName fqdn z = r)
    ∧ (fqdn.getLast? ≠ some '.' → extractRecordName fqdn z = fqdn) := by
  have hnone : strIndex fqdn ('.' :: z) = none := by
    refine strIndex_none_of ('.' :: z) fqdn fun j => ?_
    by_contra hj
    have htrue : strStarts (fqdn.drop j) ('.' :: z) = true := by
      cases hcase : strStarts (fqdn.drop j) ('.' :: z) with
      | false => exact absurd hcase hj
      | true => rfl
    obtain ⟨r, hr⟩ := strStarts_decomp ('.' :: z) (fqdn.drop j) htrue
    refine h ⟨fqdn.take j, r, ?_⟩
    conv_lhs => rw [← List.take_append_drop j fqdn]
    rw [hr, List.append_assoc]
  have hfall : extractRecordName fqdn z = unFqdn fqdn := by
    rw [extractRecordName, hnone]
  constructor
  · intro r hr
    rw [hfall, hr, unFqdn_concat_dot]
  · intro hlast
    rw [hfall, unFqdn_of_no_trailing_dot fqdn hlast]

/-- Witness for C8: `".example.org"` does not occur in
`"foo.example.com."`, so the fallback strips just the trailing dot. -/
theorem extractRecordName_fallback_witness :
    extractRecordName "foo.example.com.".toList "example.org".toList
      = "foo.example.com".toList :=
  (extractRecordName_fallback "foo.example.com.".toList "example.org".toList
    (not_substring_of_bounded _ _ (by decide) (by decide))).1
    "foo.example.com".toList (by decide)

/-- C5: `extractDomainName` never propagates an error: when the external
zone walker fails it returns the caller-supplied zone unchanged, and when it
succeeds it returns the discovered authoritative zone with its trailing dot
removed. -/
theorem extractDomainName_fallback
    (findZone : List Char → Except String (List Char)) (zone : List Char) :
    (∀ e, findZone zone = Except.error e →
        extractDomainName findZone zone = zone)
    ∧ (∀ az r, findZone zone = Except.ok az → az = r ++ ['.'] →
        extractDomainName findZone zone = r)
    ∧ (∀ az, findZone zone = Except.ok az → az.getLast? ≠ some '.' →
        extractDomainName findZone zone = az) := by
  refine ⟨fun e he => ?_, fun az r hok hr => ?_, fun az hok hlast => ?_⟩
  · simp [extractDomainName, he]
  · simp [extractDomainName, hok, hr, unFqdn_concat_dot]
  · simp [extractDomainName, hok, unFqdn_of_no_trailing_dot az hlast]

/-- Witness for C5: a succeeding and a failing zone walker. -/
theorem extractDomainName_fallback_witness :
    extractDomainName (fun _ => Except.ok "example.com.".toList)
      "guess.example.com.".toList = "example.com".toList
    ∧ extractDomainName (fun _ => Except.error "lookup failed")
      "guess.example.com.".toList = "guess.example.com.".toList :=
  ⟨(extractDomainName_fallback (fun _ => Except.ok "example.com.".toList)
      "guess.example.com.".toList).2.1 "example.com.".toList
      "example.com".toList rfl (by decide),
   (extractDomainName_fallback (fun _ => Except.error "lookup failed")
      "guess.example.com.".toList).1 "lookup failed" rfl⟩

/-! ### Configuration decoding (C9) and credential resolution (C4) -/

/-- C9: `loadConfig` treats an absent configuration blob as valid, returning
the zero-valued configuration (empty account name, empty inline key, empty
secret reference, TTL 0) with no error; with a blob present it fails exactly
when the JSON decoder fails, wrapping the decoder's message, and otherwise
returns the decoded configuration. -/
theorem loadConfig_spec (unmarshal : String → Except String Config) :
    loadConfig unmarshal none = Except.ok zeroConfig
    ∧ zeroConfig
        = { accountName := ""
            privateKey := []
            privateKeySecretRef := { name := "", key := "" }
            ttl := 0 }
    ∧ (∀ raw e, unmarshal raw = Except.error e →
        loadConfig unmarshal (some raw)
          = Except.error ("error decoding solver config: " ++ e))
    ∧ (∀ raw cfg, unmarshal raw = Except.ok cfg →
        loadConfig unmarshal (some raw) = Except.ok cfg) := by
  refine ⟨rfl, rfl, fun raw e he => ?_, fun raw cfg hok => ?_⟩
  · simp [loadConfig, he]
  · simp [loadConfig, hok]

/-- Witness for C9: a failing and a succeeding decoder on a present blob. -/
theorem loadConfig_spec_witness :
    loadConfig (fun _ => Except.error "bad JSON") none = Except.ok zeroConfig
    ∧ loadConfig (fun _ => Except.error "bad JSON") (some "\x7b")
        = Except.error "error decoding solver config: bad JSON"
    ∧ loadConfig (fun _ => Except.ok zeroConfig) (some "\x7b\x7d")
        = Except.ok zeroConfig :=
  ⟨(loadConfig_spec (fun _ => Except.error "bad JSON")).1,
   (loadConfig_spec (fun _ => Except.error "bad JSON")).2.2.1 "\x7b" "bad JSON" rfl,
   (loadConfig_spec (fun _ => Except.ok zeroConfig)).2.2.2 "\x7b\x7d" zeroConfig rfl⟩

/-- C4: credential resolution prefers the inline key: with a non-empty
inline private key the client is built from it and the result does not
depend on the secret store at all; with an empty inline key the secret named
by the reference is fetched from the challenge's namespace, a store failure
is propagated, a missing data key yields an error, and a found key is what
the client is built from. -/
theorem newTransipClient_credentials :
    (∀ (store store2 : String → String → Except String Secret)
        (mkClient : String → List Nat → Except String Client)
        (ch : ChallengeRequest) (cfg : Config),
        cfg.privateKey ≠ [] →
        NewTransipClient store mkClient ch cfg
            = mkClient cfg.accountName cfg.privateKey
        ∧ NewTransipClient store mkClient ch cfg
            = NewTransipClient store2 mkClient ch cfg)
    ∧ (∀ store mkClient (ch : ChallengeRequest) (cfg : Config) e,
        cfg.privateKey = [] →
        store ch.resourceNamespace cfg.privateKeySecretRef.name
            = Except.error e →
        NewTransipClient store mkClient ch cfg = Except.error e)
    ∧ (∀ store mkClient (ch : ChallengeRequest) (cfg : Config) secret,
        cfg.privateKey = [] →
        store ch.resourceNamespace cfg.privateKeySecretRef.name
            = Except.ok secret →
        lookupData secret.data cfg.privateKeySecretRef.key = none →
        NewTransipClient store mkClient ch cfg
          = Except.error ("no private key for \""
              ++ cfg.privateKeySecretRef.name ++ "\" in secret '"
              ++ cfg.privateKeySecretRef.key ++ "/"
              ++ ch.resourceNamespace ++ "'"))
    ∧ (∀ store mkClient (ch : ChallengeRequest) (cfg : Config) secret pk,
        cfg.privateKey = [] →
        store ch.resourceNamespace cfg.privateKeySecretRef.name
            = Except.ok secret →
        lookupData secret.data cfg.privateKeySecretRef.key = some pk →
        NewTransipClient store mkClient ch cfg
          = mkClient cfg.accountName pk) := by
  refine ⟨fun store store2 mkClient ch cfg hne => ?_,
          fun store mkClient ch cfg e h0 hs => ?_,
          fun store mkClient ch cfg secret h0 hs hmiss => ?_,
          fun store mkClient ch cfg secret pk h0 hs hfind => ?_⟩
  · have hlen : ¬ cfg.privateKey.length = 0 := by
      simpa [List.length_eq_zero] using hne
    exact ⟨by simp [NewTransipClient, hlen], by simp [NewTransipClient, hlen]⟩
  · simp [NewTransipClient, h0, hs]
  · simp [NewTransipClient, h0, hs, hmiss]
  · simp [NewTransipClient, h0, hs, hfind]

/-! ### Concrete fixtures used by the witnesses -/

/-- A challenge request of the shape cert-manager produces. -/
def wCh : ChallengeRequest :=
  { resolvedFQDN := "_acme-challenge.example.com.".toList
    resolvedZone := "example.com.".toList
    key := "proof-token".toList
    resourceNamespace := "default"
    config := some "cfg-blob" }

/-- A configuration with an inline private key. -/
def wCfg : Config :=
  { accountName := "acct"
    privateKey := [7]
    privateKeySecretRef := { name := "transip-credentials", key := "privateKey" }
    ttl := 300 }

/-- A configuration that only references a secret. -/
def wCfgRef : Config :=
  { accountName := "acct"
    privateKey := []
    privateKeySecretRef := { name := "transip-credentials", key := "privateKey" }
    ttl := 300 }

/-- A secret store in which every lookup fails. -/
def wStoreFail : String → String → Except String Secret :=
  fun _ _ => Except.error "secret not found"

/-- A client constructor that always succeeds. -/
def wMkClient : String → List Nat → Except String Client :=
  fun an pk => Except.ok { accountName := an, privateKey := pk }

/-- Witness for C4: the inline key is used untouched while the store fails
everywhere; without an inline key the store failure is propagated; with a
secret lacking the referenced key the lookup error is returned. -/
theorem newTransipClient_credentials_witness :
    NewTransipClient wStoreFail wMkClient wCh wCfg
        = Except.ok { accountName := "acct", privateKey := [7] }
    ∧ NewTransipClient wStoreFail wMkClient wCh wCfgRef
        = Except.error "secret not found"
    ∧ NewTransipClient (fun _ _ => Except.ok { data := [("otherKey", [9])] })
        wMkClient wCh wCfgRef
        = Except.error
            "no private key for \"transip-credentials\" in secret 'privateKey/default'" := by
  refine ⟨?_, ?_, ?_⟩
  · have h := (newTransipClient_credentials.1 wStoreFail wStoreFail wMkClient
      wCh wCfg (by decide)).1
    simpa [wMkClient, wCfg] using h
  · exact newTransipClient_credentials.2.1 wStoreFail wMkClient wCh wCfgRef
      "secret not found" rfl rfl
  · have h := newTransipClient_credentials.2.2.1
      (fun _ _ => Except.ok { data := [("otherKey", [9])] }) wMkClient wCh
      wCfgRef { data := [("otherKey", [9])] } rfl rfl (by decide)
    simpa [wCfgRef, wCh] using h

/-- A full dependency bundle whose provider holds the given record list and
whose mutating calls succeed. -/
def wDeps (entries : List DNSEntry) : Deps :=
  { findZone := fun _ => Except.ok "example.com.".toList
    unmarshal := fun _ => Except.ok wCfg
    store := wStoreFail
    mkClient := wMkClient
    getEntries := fun _ _ => Except.ok entries
    addEntry := fun _ _ _ => Except.ok ()
    removeEntry := fun _ _ _ => Except.ok () }

/-- The client `wMkClient` builds from `wCfg`. -/
def wClient : Client := { accountName := "acct", privateKey := [7] }

/-- The domain name resolved for `wCh` under `wDeps`. -/
def wDomain : List Char := "example.com".toList

/-- The target entry built from `wCh` and `wCfg`. -/
def wAcme : DNSEntry :=
  { name := "_acme-challenge".toList
    expire := 300
    type_ := "TXT"
    content := "proof-token".toList }

/-- A record agreeing with `wAcme` except for its value. -/
def wSibling : DNSEntry :=
  { name := "_acme-challenge".toList
    expire := 300
    type_ := "TXT"
    content := "other-token".toList }

/-- A record agreeing with `wAcme` except for its TTL. -/
def wDiffTTL : DNSEntry :=
  { name := "_acme-challenge".toList
    expire := 600
    type_ := "TXT"
    content := "proof-token".toList }

/-- `wDeps []` with a failing provider list call. -/
def wDepsFail : Deps :=
  { wDeps [] with getEntries := (fun _ _ => Except.error "api down") }

/-! ### List lemmas for the record-management claims -/

theorem containsEntry_append_self (l : List DNSEntry) (t : DNSEntry) :
    containsEntry (l ++ [t]) t = true := by
  induction l with
  | nil => simp [containsEntry]
  | cons s rest ih => by_cases h : s = t <;> simp [containsEntry, h, ih]

theorem countEntry_eq_zero_of_not_contains (t : DNSEntry) (l : List DNSEntry)
    (h : containsEntry l t = false) : countEntry t l = 0 := by
  induction l with
  | nil => rfl
  | cons s rest ih =>
    by_cases hs : s = t
    · simp [containsEntry, hs] at h
    · simp only [containsEntry, if_neg hs] at h
      simp [countEntry, hs, ih h]

theorem countEntry_append_self (t : DNSEntry) (l : List DNSEntry) :
    countEntry t (l ++ [t]) = countEntry t l + 1 := by
  induction l with
  | nil => simp [countEntry]
  | cons s rest ih =>
    by_cases hs : s = t
    · simp [countEntry, hs, ih]
      omega
    · simp [countEntry, hs, ih]

theorem countEntry_eraseFirst_of_ne (e t : DNSEntry) (h : e ≠ t)
    (l : List DNSEntry) : countEntry e (eraseFirst t l) = countEntry e l := by
  induction l with
  | nil => rfl
  | cons s rest ih =>
    by_cases hs : s = t
    · subst hs
      have hse : ¬ s = e := fun hEq => h hEq.symm
      simp [eraseFirst, countEntry, hse]
    · simp [eraseFirst, hs, countEntry, ih]

/-! ### Record management: Present (C1) and CleanUp (C2, C10) -/

/-- C1: under a decoded configuration, a constructed client and a fetched
record list, `Present` is idempotent: if the list already holds an entry
equal to the target tuple it issues no add and succeeds; otherwise it issues
exactly one add of that tuple, after which the provider holds exactly one
such record; and a second `Present` against the resulting record list is a
no-op that succeeds. -/
theorem present_idempotent
    (d : Deps) (ch : ChallengeRequest) (cfg : Config) (client : Client)
    (entries : List DNSEntry)
    (hc : loadConfig d.unmarshal ch.config = Except.ok cfg)
    (hk : NewTransipClient d.store d.mkClient ch cfg = Except.ok client)
    (hg : d.getEntries client (domainOf d ch) = Except.ok entries)
    (hadd : ∀ c n e, d.addEntry c n e = Except.ok ()) :
    (containsEntry entries (targetEntry d ch cfg) = true →
        Present d ch = (Except.ok (), []))
    ∧ (containsEntry entries (targetEntry d ch cfg) = false →
        Present d ch = (Except.ok (),
          [ProviderOp.add (domainOf d ch) (targetEntry d ch cfg)])
        ∧ countEntry (targetEntry d ch cfg)
            (applyOps entries (Present d ch).2) = 1)
    ∧ Present { d with getEntries := (fun _ _ =>
          Except.ok (applyOps entries (Present d ch).2)) } ch
        = (Except.ok (), []) := by
  simp only [domainOf] at hg
  simp only [targetEntry, domainOf]
  by_cases hmem : containsEntry entries
      (NewDNSEntryFromChallenge ch cfg
        (extractDomainName d.findZone ch.resolvedZone)) = true
  · have hP : Present d ch = (Except.ok (), []) := by
      simp [Present, hc, hk, hg, hmem]
    have hops : applyOps entries (Present d ch).2 = entries := by
      rw [hP]
      rfl
    refine ⟨fun _ => hP, fun hfalse => ?_, ?_⟩
    · rw [hfalse] at hmem
      exact Bool.noConfusion hmem
    · rw [hops]
      simp [Present, hc, hk, hmem]
  · have hmem' : containsEntry entries
        (NewDNSEntryFromChallenge ch cfg
          (extractDomainName d.findZone ch.resolvedZone)) = false := by
      cases h : containsEntry entries
          (NewDNSEntryFromChallenge ch cfg
            (extractDomainName d.findZone ch.resolvedZone))
      · rfl
      · exact absurd h hmem
    have hP : Present d ch = (Except.ok (),
        [ProviderOp.add (extractDomainName d.findZone ch.resolvedZone)
          (NewDNSEntryFromChallenge ch cfg
            (extractDomainName d.findZone ch.resolvedZone))]) := by
      simp [Present, hc, hk, hg, hmem', hadd]
    have hzero : countEntry
        (NewDNSEntryFromChallenge ch cfg
          (extractDomainName d.findZone ch.resolvedZone)) entries = 0 :=
      countEntry_eq_zero_of_not_contains _ _ hmem'
    have hops : applyOps entries (Present d ch).2
        = entries ++ [NewDNSEntryFromChallenge ch cfg
            (extractDomainName d.findZone ch.resolvedZone)] := by
      rw [hP]
      rfl
    refine ⟨fun htrue => absurd htrue hmem, fun _ => ⟨hP, ?_⟩, ?_⟩
    · rw [hops, countEntry_append_self, hzero]
    · rw [hops]
      simp [Present, hc, hk, containsEntry_append_self]

/-- Witness for C1: an empty provider list, one add of the target tuple,
exactly one resulting record, and an idempotent second call. -/
theorem present_idempotent_witness :
    Present (wDeps []) wCh = (Except.ok (), [ProviderOp.add wDomain wAcme])
    ∧ countEntry wAcme (applyOps [] (Present (wDeps []) wCh).2) = 1
    ∧ Present { wDeps [] with getEntries := (fun _ _ =>
          Except.ok (applyOps [] (Present (wDeps []) wCh).2)) } wCh
        = (Except.ok (), []) := by
  have h := present_idempotent (wDeps []) wCh wCfg wClient []
    rfl rfl rfl (fun _ _ _ => rfl)
  exact ⟨(h.2.1 rfl).1, (h.2.1 rfl).2, h.2.2⟩

/-- C2: `CleanUp` only ever issues a remove of the exact four-field target
tuple, and every record different from that tuple is present in the
resulting provider list exactly as often as before the call. -/
theorem cleanup_exact_tuple_frame
    (d : Deps) (ch : ChallengeRequest) (cfg : Config) (client : Client)
    (entries : List DNSEntry)
    (hc : loadConfig d.unmarshal ch.config = Except.ok cfg)
    (hk : NewTransipClient d.store d.mkClient ch cfg = Except.ok client)
    (hg : d.getEntries client (domainOf d ch) = Except.ok entries) :
    (∀ op, op ∈ (CleanUp d ch).2 →
        op = ProviderOp.remove (domainOf d ch) (targetEntry d ch cfg))
    ∧ (∀ e : DNSEntry, e ≠ targetEntry d ch cfg →
        countEntry e (applyOps entries (CleanUp d ch).2)
          = countEntry e entries) := by
  simp only [domainOf] at hg
  by_cases hmem : containsEntry entries (targetEntry d ch cfg) = true
  · have hmem' := hmem
    simp only [targetEntry, domainOf] at hmem'
    have hops : (CleanUp d ch).2
        = [ProviderOp.remove (domainOf d ch) (targetEntry d ch cfg)] := by
      simp only [targetEntry, domainOf]
      cases hrm : d.removeEntry client
          (extractDomainName d.findZone ch.resolvedZone)
          (NewDNSEntryFromChallenge ch cfg
            (extractDomainName d.findZone ch.resolvedZone)) with
      | error e => simp [CleanUp, hc, hk, hg, hmem', hrm]
      | ok u => simp [CleanUp, hc, hk, hg, hmem', hrm]
    refine ⟨fun op hop => ?_, fun e hne => ?_⟩
    · rw [hops] at hop
      simpa using hop
    · rw [hops]
      simp only [applyOps]
      exact countEntry_eraseFirst_of_ne e (targetEntry d ch cfg) hne entries
  · have hmem' : containsEntry entries (targetEntry d ch cfg) = false := by
      cases h : containsEntry entries (targetEntry d ch cfg)
      · rfl
      · exact absurd h hmem
    simp only [targetEntry, domainOf] at hmem'
    have hops : (CleanUp d ch).2 = [] := by
      simp [CleanUp, hc, hk, hg, hmem']
    rw [hops]
    exact ⟨fun op hop => absurd hop (List.not_mem_nil op),
      fun e _ => by simp only [applyOps]⟩

/-- Witness for C2: with a sibling record of the same name, type and TTL but
a different value sitting beside the target, `CleanUp` issues one remove of
the target tuple and the sibling's count is untouched. -/
theorem cleanup_exact_tuple_frame_witness :
    (∀ op, op ∈ (CleanUp (wDeps [wSibling, wAcme]) wCh).2 →
        op = ProviderOp.remove wDomain wAcme)
    ∧ countEntry wSibling
        (applyOps [wSibling, wAcme] (CleanUp (wDeps [wSibling, wAcme]) wCh).2)
      = countEntry wSibling [wSibling, wAcme] := by
  have h := cleanup_exact_tuple_frame (wDeps [wSibling, wAcme]) wCh wCfg
    wClient [wSibling, wAcme] rfl rfl rfl
  exact ⟨fun op hop => h.1 op hop, h.2 wSibling (by decide)⟩

/-- C10: `CleanUp` issues at most one remove per invocation; when some entry
matches it issues exactly one remove of the target tuple (stopping at the
first match), and when none matches it issues nothing and succeeds. -/
theorem cleanup_at_most_one_remove
    (d : Deps) (ch : ChallengeRequest) (cfg : Config) (client : Client)
    (entries : List DNSEntry)
    (hc : loadConfig d.unmarshal ch.config = Except.ok cfg)
    (hk : NewTransipClient d.store d.mkClient ch cfg = Except.ok client)
    (hg : d.getEntries client (domainOf d ch) = Except.ok entries) :
    (CleanUp d ch).2.length ≤ 1
    ∧ (containsEntry entries (targetEntry d ch cfg) = true →
        (CleanUp d ch).2
          = [ProviderOp.remove (domainOf d ch) (targetEntry d ch cfg)])
    ∧ (containsEntry entries (targetEntry d ch cfg) = false →
        CleanUp d ch = (Except.ok (), [])) := by
  simp only [domainOf] at hg
  by_cases hmem : containsEntry entries (targetEntry d ch cfg) = true
  · have hmem' := hmem
    simp only [targetEntry, domainOf] at hmem'
    have hops : (CleanUp d ch).2
        = [ProviderOp.remove (domainOf d ch) (targetEntry d ch cfg)] := by
      simp only [targetEntry, domainOf]
      cases hrm : d.removeEntry client
          (extractDomainName d.findZone ch.resolvedZone)
          (NewDNSEntryFromChallenge ch cfg
            (extractDomainName d.findZone ch.resolvedZone)) with
      | error e => simp [CleanUp, hc, hk, hg, hmem', hrm]
      | ok u => simp [CleanUp, hc, hk, hg, hmem', hrm]
    refine ⟨by rw [hops]; exact Nat.le_refl 1, fun _ => hops, fun hfalse => ?_⟩
    · rw [hfalse] at hmem
      exact Bool.noConfusion hmem
  · have hmem' : containsEntry entries (targetEntry d ch cfg) = false := by
      cases h : containsEntry entries (targetEntry d ch cfg)
      · rfl
      · exact absurd h hmem
    have hmem'' := hmem'
    simp only [targetEntry, domainOf] at hmem''
    have hC : CleanUp d ch = (Except.ok (), []) := by
      simp [CleanUp, hc, hk, hg, hmem'']
    refine ⟨by rw [hC]; exact Nat.zero_le 1, fun htrue => absurd htrue hmem,
      fun _ => hC⟩

/-- Witness for C10: a provider list holding only the sibling record yields
no remove and a nil error. -/
theorem cleanup_at_most_one_remove_witness :
    (CleanUp (wDeps [wSibling]) wCh).2.length ≤ 1
    ∧ CleanUp (wDeps [wSibling]) wCh = (Except.ok (), []) := by
  have h := cleanup_at_most_one_remove (wDeps [wSibling]) wCh wCfg wClient
    [wSibling] rfl rfl rfl
  exact ⟨h.1, h.2.2 (by decide)⟩

/-! ### The shared match predicate (C6) and failure propagation (C7) -/

/-- C6: the match predicate `Present` and `CleanUp` share is equality of all
four fields of the DNS entry; a lone existing record that differs from the
target in any field is not a match, so `Present` issues an add beside it and
`CleanUp` removes nothing and succeeds. -/
theorem match_requires_full_tuple :
    (∀ e t : DNSEntry, e = t ↔
        e.name = t.name ∧ e.type_ = t.type_ ∧ e.expire = t.expire
          ∧ e.content = t.content)
    ∧ (∀ (d : Deps) (ch : ChallengeRequest) (cfg : Config) (client : Client)
          (e : DNSEntry),
        loadConfig d.unmarshal ch.config = Except.ok cfg →
        NewTransipClient d.store d.mkClient ch cfg = Except.ok client →
        d.getEntries client (domainOf d ch) = Except.ok [e] →
        e ≠ targetEntry d ch cfg →
        (Present d ch).2
            = [ProviderOp.add (domainOf d ch) (targetEntry d ch cfg)]
        ∧ CleanUp d ch = (Except.ok (), [])) := by
  constructor
  · intro e t
    constructor
    · intro h
      rw [h]
      exact ⟨rfl, rfl, rfl, rfl⟩
    · rintro ⟨h1, h2, h3, h4⟩
      cases e
      cases t
      simp_all
  · intro d ch cfg client e hc hk hg hne
    simp only [domainOf] at hg
    simp only [targetEntry, domainOf] at hne ⊢
    have hmem : containsEntry [e]
        (NewDNSEntryFromChallenge ch cfg
          (extractDomainName d.findZone ch.resolvedZone)) = false := by
      simp [containsEntry, hne]
    constructor
    · cases hrm : d.addEntry client
          (extractDomainName d.findZone ch.resolvedZone)
          (NewDNSEntryFromChallenge ch cfg
            (extractDomainName d.findZone ch.resolvedZone)) with
      | error err => simp [Present, hc, hk, hg, hmem, hrm]
      | ok u => simp [Present, hc, hk, hg, hmem, hrm]
    · simp [CleanUp, hc, hk, hg, hmem]

/-- Witness for C6: a record agreeing with the target in name, type and
value but carrying TTL 600 instead of 300 is not matched: `Present` adds the
target beside it and `CleanUp` removes nothing. -/
theorem match_requires_full_tuple_witness :
    (Present (wDeps [wDiffTTL]) wCh).2 = [ProviderOp.add wDomain wAcme]
    ∧ CleanUp (wDeps [wDiffTTL]) wCh = (Except.ok (), []) := by
  have h := match_requires_full_tuple.2 (wDeps [wDiffTTL]) wCh wCfg wClient
    wDiffTTL rfl rfl rfl (by decide)
  exact ⟨h.1, h.2⟩

/-- C7: a failure of configuration decoding, of client construction or of
the provider's list call is returned as-is by both `Present` and `CleanUp`,
and in each case no mutating provider call is issued. -/
theorem failures_propagated (d : Deps) (ch : ChallengeRequest) :
    (∀ e, loadConfig d.unmarshal ch.config = Except.error e →
        Present d ch = (Except.error e, [])
        ∧ CleanUp d ch = (Except.error e, []))
    ∧ (∀ cfg e, loadConfig d.unmarshal ch.config = Except.ok cfg →
        NewTransipClient d.store d.mkClient ch cfg = Except.error e →
        Present d ch = (Except.error e, [])
        ∧ CleanUp d ch = (Except.error e, []))
    ∧ (∀ cfg client e, loadConfig d.unmarshal ch.config = Except.ok cfg →
        NewTransipClient d.store d.mkClient ch cfg = Except.ok client →
        d.getEntries client (domainOf d ch) = Except.error e →
        Present d ch = (Except.error e, [])
        ∧ CleanUp d ch = (Except.error e, [])) := by
  refine ⟨fun e hc => ?_, fun cfg e hc hk => ?_, fun cfg client e hc hk hg => ?_⟩
  · exact ⟨by simp [Present, hc], by simp [CleanUp, hc]⟩
  · exact ⟨by simp [Present, hc, hk], by simp [CleanUp, hc, hk]⟩
  · simp only [domainOf] at hg
    exact ⟨by simp [Present, hc, hk, hg], by simp [CleanUp, hc, hk, hg]⟩

/-- Witness for C7: with the provider's list call failing, both operations
return that very error and issue nothing. -/
theorem failures_propagated_witness :
    Present wDepsFail wCh = (Except.error "api down", [])
    ∧ CleanUp wDepsFail wCh = (Except.error "api down", []) :=
  (failures_propagated wDepsFail wCh).2.2 wCfg wClient "api down" rfl rfl rfl

end TransipWebhook
